/-
Verification of the aggregation, validation and authorization core of the
"fiance" expense-tracking application (server/storage.ts, server/routes.ts,
shared/schema.ts), as a shallow embedding in Lean 4.

Modelling conventions:
* A stored transaction amount is a two-place decimal string (schema column
  `decimal("amount", { precision: 10, scale: 2 })`).  The faithful numeric
  semantics of the source's `parseFloat` / JavaScript-number arithmetic is
  the IEEE-754 binary64 model in namespace `F64` below; every claim about
  computed sums, totals or rounding is settled against it.  The structural
  properties of the category pipeline (grouping order, sort order,
  stability, the percentage guard) are independent of the numeric carrier
  of the amounts; for those the pipeline is stated with amounts carried as
  rationals `ℚ`, which keeps the order/branch structure of the source
  intact while staying neutral about the arithmetic.
* JavaScript `Map` objects are embedded as association lists in insertion
  order: `Map.set` on a fresh key appends, `Map.set` on an existing key
  updates the entry in place, which is exactly the iteration order
  `Map.entries()` exposes.
* `Array.prototype.sort` is stable (ECMAScript 2019); a stable sort with
  respect to the comparator `(a, b) => b.amount - a.amount` is embedded as
  `List.insertionSort` with the relation `spendDesc` (Mathlib's insertion
  sort is stable with respect to its relation, so it computes the same
  list as any other stable sort for this total preorder).
-/
import Mathlib

namespace Fiance

/-- The `type` column of the `transactions` table:
`text("type", { enum: ["income", "expense"] })` in shared/schema.ts. -/
inductive TxType
  | income
  | expense
deriving DecidableEq, Repr

/-- A row of the `transactions` table (shared/schema.ts).  `amount` carries
the exact rational value of the stored two-place decimal string; `date` is
the timestamp in epoch milliseconds (the value `Date.prototype.valueOf`
compares by). -/
structure Transaction where
  id : Nat
  userId : String
  groupId : Option Nat
  ttype : TxType
  amount : ℚ
  category : String
  description : String
  date : ℤ
deriving DecidableEq, Repr

/-- An entry `{ category, amount, percentage }` of the category-spending
report. -/
structure CategorySpending where
  category : String
  amount : ℚ
  percentage : ℚ
deriving DecidableEq, Repr

/-- Embedding of one step of the `expenses.forEach` loop of
`getCategorySpending` (server/storage.ts):
`categoryTotals.set(c, (categoryTotals.get(c) || 0) + amount)` on a
JavaScript `Map` updates an existing key in place and appends a fresh key
at the end of the iteration order.  Amounts are carried as `ℚ` here; the
key/order structure this pipeline is used to reason about does not depend
on that carrier (the binary64 accumulation itself is `F64.addAmountF`). -/
def addAmount : List (String × ℚ) → String → ℚ → List (String × ℚ)
  | [], c, a => [(c, a)]
  | p :: rest, c, a =>
    if p.1 = c then (p.1, p.2 + a) :: rest else p :: addAmount rest c a

/-- The `categoryTotals` map of `getCategorySpending` after the `forEach`
loop, as its insertion-ordered entry list (`Array.from(map.entries())`). -/
def categoryEntries (txs : List Transaction) : List (String × ℚ) :=
  (txs.filter fun t => t.ttype == TxType.expense).foldl
    (fun m t => addAmount m t.category t.amount) []

/-- The `totalExpenses` accumulator of `getCategorySpending`, with the
`ℚ` carrier; it only feeds the `totalExpenses > 0` guard and the
percentage formula of the structural claims (the binary64 total is
`F64.totalExpensesF`). -/
def totalExpensesOf (txs : List Transaction) : ℚ :=
  (txs.filter fun t => t.ttype == TxType.expense).foldl
    (fun sum t => sum + t.amount) 0

/-- The list produced by the `.map` step of `getCategorySpending`, before
sorting: one entry per category in first-encounter order, with
`percentage: totalExpenses > 0 ? (amount / totalExpenses) * 100 : 0`. -/
def preSpending (txs : List Transaction) : List CategorySpending :=
  (categoryEntries txs).map fun p =>
    { category := p.1, amount := p.2,
      percentage :=
        if 0 < totalExpensesOf txs then p.2 / totalExpensesOf txs * 100 else 0 }

/-- The ordering the comparator `(a, b) => b.amount - a.amount` sorts by:
descending amount. -/
def spendDesc (a b : CategorySpending) : Prop := b.amount ≤ a.amount

instance : DecidableRel spendDesc := fun a b =>
  inferInstanceAs (Decidable (b.amount ≤ a.amount))

instance : IsTotal CategorySpending spendDesc :=
  ⟨fun a b => le_total b.amount a.amount⟩

instance : IsTrans CategorySpending spendDesc :=
  ⟨fun _ _ _ hab hbc => le_trans hbc hab⟩

/-- Embedding of `getCategorySpending` (server/storage.ts): group expense
amounts by category in first-encounter order, attach percentages, and
stably sort descending by amount (`.sort((a, b) => b.amount - a.amount)`,
a stable sort per ECMAScript 2019). -/
def getCategorySpending (txs : List Transaction) : List CategorySpending :=
  List.insertionSort spendDesc (preSpending txs)

/-- The order in which the categories of a list first occur, formalising
the spec's "first-encountered insertion order". -/
def firstEncounterOrder (cats : List String) : List String :=
  cats.foldl (fun ks c => if c ∈ ks then ks else ks ++ [c]) []

lemma filter_orderedInsert (q : ℚ) (x : CategorySpending)
    (l : List CategorySpending) :
    (l.orderedInsert spendDesc x).filter (fun e => e.amount == q)
      = if x.amount = q then x :: l.filter (fun e => e.amount == q)
        else l.filter (fun e => e.amount == q) := by
  induction l with
  | nil =>
    by_cases h : x.amount = q <;> simp [h]
  | cons y ys ih =>
    by_cases hxy : spendDesc x y
    · rw [List.orderedInsert, if_pos hxy]
      by_cases h : x.amount = q <;> simp [h]
    · rw [List.orderedInsert, if_neg hxy]
      by_cases h : x.amount = q
      · have hy : y.amount ≠ q := by
          intro hq
          exact hxy (le_of_eq (h ▸ hq))
        simp [List.filter_cons, hy, ih, h]
      · by_cases hy : y.amount = q <;> simp [List.filter_cons, hy, ih, h]

lemma filter_insertionSort (q : ℚ) (l : List CategorySpending) :
    (List.insertionSort spendDesc l).filter (fun e => e.amount == q)
      = l.filter (fun e => e.amount == q) := by
  induction l with
  | nil => rfl
  | cons x xs ih =>
    rw [List.insertionSort, filter_orderedInsert, ih]
    by_cases h : x.amount = q <;> simp [h]

lemma keys_addAmount (m : List (String × ℚ)) (c : String) (a : ℚ) :
    (addAmount m c a).map Prod.fst
      = if c ∈ m.map Prod.fst then m.map Prod.fst
        else m.map Prod.fst ++ [c] := by
  induction m with
  | nil => simp [addAmount]
  | cons p rest ih =>
    by_cases h : p.1 = c
    · simp [addAmount, h]
    · have h' : ¬c = p.1 := fun hc => h hc.symm
      by_cases h2 : c ∈ rest.map Prod.fst <;>
        simp [addAmount, h, h', h2, ih]

lemma keys_foldl_addAmount (l : List Transaction) (m : List (String × ℚ)) :
    ((l.foldl (fun m t => addAmount m t.category t.amount) m).map Prod.fst)
      = (l.map (·.category)).foldl
          (fun ks c => if c ∈ ks then ks else ks ++ [c]) (m.map Prod.fst) := by
  induction l generalizing m with
  | nil => rfl
  | cons t ts ih => simp [List.foldl_cons, ih, keys_addAmount]

lemma keys_categoryEntries (txs : List Transaction) :
    (categoryEntries txs).map Prod.fst
      = firstEncounterOrder
          ((txs.filter fun t => t.ttype == TxType.expense).map (·.category)) := by
  simpa [categoryEntries, firstEncounterOrder] using
    keys_foldl_addAmount (txs.filter fun t => t.ttype == TxType.expense) []

/-- C6: the category-spending list is sorted descending by amount
(`Sorted spendDesc` is `Pairwise`, hence covers all adjacent pairs), ties
are broken stably (for every amount value, the entries carrying it appear
exactly as in the unsorted per-category list), and the unsorted
per-category list is in first-encounter order of the expense categories. -/
theorem getCategorySpending_sorted_stable (txs : List Transaction) :
    (getCategorySpending txs).Sorted spendDesc
    ∧ (∀ q : ℚ, (getCategorySpending txs).filter (fun e => e.amount == q)
        = (preSpending txs).filter (fun e => e.amount == q))
    ∧ (preSpending txs).map (·.category)
        = firstEncounterOrder
            ((txs.filter fun t => t.ttype == TxType.expense).map (·.category)) := by
  refine ⟨List.sorted_insertionSort spendDesc (preSpending txs),
    fun q => filter_insertionSort q (preSpending txs), ?_⟩
  rw [← keys_categoryEntries]
  simp [preSpending]

/-- C7: every entry's percentage is `100 * amount / totalExpenses` when the
expense total is positive and `0` otherwise; in particular a zero expense
total never leads to a division. -/
theorem getCategorySpending_percentage (txs : List Transaction)
    (e : CategorySpending) (he : e ∈ getCategorySpending txs) :
    e.percentage
      = (if 0 < totalExpensesOf txs
          then 100 * e.amount / totalExpensesOf txs else 0)
    ∧ (totalExpensesOf txs = 0 → e.percentage = 0) := by
  have hmem : e ∈ preSpending txs :=
    ((List.perm_insertionSort spendDesc (preSpending txs)).mem_iff).mp he
  obtain ⟨p, _, rfl⟩ := List.mem_map.mp hmem
  constructor
  · by_cases h : 0 < totalExpensesOf txs
    · simp [h]; ring
    · simp [h]
  · intro h0
    simp [h0]

/-- The single category-spending entry produced from `txW`. -/
def eW : CategorySpending :=
  { category := "Food & Dining", amount := 9/2, percentage := 100 }

def txW : List Transaction :=
  [{ id := 2, userId := "u1", groupId := none, ttype := TxType.expense,
     amount := 9/2, category := "Food & Dining",
     description := "Coffee Shop", date := 1 }]

lemma getCategorySpending_txW : getCategorySpending txW = [eW] := by
  norm_num [getCategorySpending, preSpending, categoryEntries,
    totalExpensesOf, addAmount, txW, eW]

/-- Witness for C7 at the concrete one-expense state `txW`. -/
theorem getCategorySpending_percentage_witness :
    eW.percentage
      = (if 0 < totalExpensesOf txW
          then 100 * eW.amount / totalExpensesOf txW else 0)
    ∧ (totalExpensesOf txW = 0 → eW.percentage = 0) :=
  getCategorySpending_percentage txW eW
    (by rw [getCategorySpending_txW]; exact List.mem_singleton.mpr rfl)

lemma nodup_keys_addAmount (m : List (String × ℚ)) (c : String) (a : ℚ)
    (h : (m.map Prod.fst).Nodup) : ((addAmount m c a).map Prod.fst).Nodup := by
  rw [keys_addAmount]
  by_cases h2 : c ∈ m.map Prod.fst <;> simp [h2, List.Nodup.append, h]

lemma nodup_keys_foldl_addAmount (l : List Transaction)
    (m : List (String × ℚ)) (h : (m.map Prod.fst).Nodup) :
    ((l.foldl (fun m t => addAmount m t.category t.amount) m).map Prod.fst).Nodup := by
  induction l generalizing m with
  | nil => exact h
  | cons t ts ih => exact ih _ (nodup_keys_addAmount _ _ _ h)

/-- Embedding of `MemStorage.deleteTransaction` (server/storage.ts):
`this.transactions.delete(id)` on the `Map<number, Transaction>` removes
the entry with that key and returns whether it was present (the
`DatabaseStorage` variant likewise reports `rowCount > 0`).  The map is
embedded as its entry list. -/
def deleteTransaction (m : List (Nat × Transaction)) (id : Nat) :
    List (Nat × Transaction) × Bool :=
  if m.any (fun p => p.1 == id)
    then (m.filter (fun p => !(p.1 == id)), true)
    else (m, false)

/-- C8: deleting returns `true` exactly when a transaction with the id is
present, the resulting state never contains the id, and a second delete of
the same id returns `false`. -/
theorem deleteTransaction_spec (m : List (Nat × Transaction)) (id : Nat) :
    ((deleteTransaction m id).2 = true ↔ (m.any fun p => p.1 == id) = true)
    ∧ ((deleteTransaction m id).1.any fun p => p.1 == id) = false
    ∧ (deleteTransaction (deleteTransaction m id).1 id).2 = false := by
  by_cases h : (m.any fun p => p.1 == id) = true
  · have h2 : ((m.filter fun p => !(p.1 == id)).any fun p => p.1 == id) = false := by
      simp only [List.any_eq_false]
      intro p hp
      have := List.of_mem_filter hp
      simpa using this
    refine ⟨by simp [deleteTransaction, h], ?_, ?_⟩
    · simp only [deleteTransaction, h, if_true]
      exact h2
    · simp [deleteTransaction, h, h2]
  · have hf : (m.any fun p => p.1 == id) = false := Bool.eq_false_iff.mpr h
    exact ⟨by simp [deleteTransaction, hf], by simp [deleteTransaction, hf],
      by simp [deleteTransaction, hf]⟩

/-- Embedding of `MemStorage.getTransactionsByDateRange` (server/storage.ts):
filters the stored transactions by
`new Date(t.date) >= startDate && new Date(t.date) <= endDate`
(`Date` comparison is numeric on epoch milliseconds, so both bounds are
inclusive). -/
def memGetTransactionsByDateRange (m : List (Nat × Transaction))
    (startDate endDate : ℤ) : List Transaction :=
  (m.map Prod.snd).filter fun t =>
    decide (startDate ≤ t.date) && decide (t.date ≤ endDate)

/-- Embedding of `DatabaseStorage.getTransactionsByDateRange`
(server/storage.ts): the query selects only on `transactions.userId` and
never uses `startDate` or `endDate`. -/
def dbGetTransactionsByDateRange (rows : List Transaction)
    (startDate endDate : ℤ) (userId : String) : List Transaction :=
  rows.filter fun t => t.userId == userId

/-- A transaction dated outside the range `[0, 50]`. -/
def txLate : Transaction :=
  { id := 7, userId := "u1", groupId := none, ttype := TxType.expense,
    amount := 5, category := "Shopping", description := "late",
    date := 100 }

/-- C4 (failing input): `DatabaseStorage.getTransactionsByDateRange`
returns a transaction dated 100 for the range `[0, 50]`, while the
`MemStorage` variant of the same interface correctly filters it out with
inclusive bounds. -/
theorem dbGetTransactionsByDateRange_ignores_range :
    dbGetTransactionsByDateRange [txLate] 0 50 "u1" = [txLate]
    ∧ ¬(txLate.date ≤ 50)
    ∧ memGetTransactionsByDateRange [(7, txLate)] 0 50 = [] := by
  refine ⟨?_, by decide, ?_⟩ <;>
    simp [dbGetTransactionsByDateRange, memGetTransactionsByDateRange, txLate]

/-- Embedding of `insertTransactionSchema` (shared/schema.ts) applied by
`POST /api/transactions` (server/routes.ts): `createInsertSchema` derives
`type` from the column enum `["income", "expense"]` and plain string
validators for `category` and `description`; the `.extend` overrides
`amount` with `z.string().min(1, "Amount is required")`, i.e. only a
length check.  The body fields are the four properties the schema keeps. -/
def insertTransactionCheck (ttype amount category description : String) : Bool :=
  (ttype == "income" || ttype == "expense") && decide (1 ≤ amount.length)

/-- C5 (counterexample): server-side validation accepts the amount `"0"`
and the negative amount `"-12.50"`, so it does not accept only positive
decimal strings. -/
theorem insertTransactionCheck_accepts_nonpositive :
    insertTransactionCheck "expense" "0" "Food & Dining" "x" = true
    ∧ insertTransactionCheck "expense" "-12.50" "Food & Dining" "x" = true := by
  decide

/-- C5 (amended): server-side validation of a create request accepts the
body exactly when `type` is one of the two enumerated values and `amount`
is a non-empty string; no positivity or numeric-format check is applied. -/
theorem insertTransactionCheck_iff (ttype amount category description : String) :
    insertTransactionCheck ttype amount category description = true
      ↔ ((ttype = "income" ∨ ttype = "expense") ∧ amount ≠ "") := by
  have hlen : 1 ≤ amount.length ↔ amount ≠ "" := by
    rw [Nat.one_le_iff_ne_zero]
    constructor
    · intro h he
      exact h (by simp [he])
    · intro h hz
      exact h (String.ext (List.length_eq_zero.mp hz))
  simp [insertTransactionCheck, hlen]

/-- A row of the `users` table (shared/schema.ts); `password` is the
nullable `varchar("password")` column holding the bcrypt hash.  In a
response payload, `password := none` means the field is absent. -/
structure User where
  id : String
  email : Option String
  phone : Option String
  firstName : String
  lastName : String
  password : Option String
  role : String
deriving DecidableEq, Repr

/-- Embedding of the signup handler's response user
(server/routes.ts: `const { password: _, ...userResponse } = newUser`). -/
def signupResponseUser (u : User) : User := { u with password := none }

/-- Embedding of the signin handler's response user
(server/routes.ts: `const { password: _, ...userResponse } = user`). -/
def signinResponseUser (u : User) : User := { u with password := none }

/-- Embedding of the `GET /api/auth/user` handler's response for an
existing user (server/routes.ts: `const user = await storage.getUser(userId);
res.json(user);` — the stored row is serialized verbatim, nothing is
stripped). -/
def authUserResponse (u : User) : User := u

def uLeak : User :=
  { id := "user_1", email := some "a@b.c", phone := none,
    firstName := "Ada", lastName := "L",
    password := some "bcrypt-hash-1", role := "user" }

/-- C3 (failing input): the get-current-user endpoint returns the stored
password hash, and changing only the stored hash changes that response
payload; the signup and signin handlers do strip the field. -/
theorem authUserResponse_leaks_password :
    (authUserResponse uLeak).password = some "bcrypt-hash-1"
    ∧ authUserResponse uLeak
        ≠ authUserResponse { uLeak with password := some "bcrypt-hash-2" }
    ∧ (signupResponseUser uLeak).password = none
    ∧ (signinResponseUser uLeak).password = none := by
  refine ⟨rfl, ?_, rfl, rfl⟩
  simp [authUserResponse, uLeak]

/-- A row of the `user_groups` table (shared/schema.ts); `canAddExpense`
is the text enum column with values `"true"` / `"false"`. -/
structure UserGroup where
  id : Nat
  userId : String
  groupId : Nat
  canAddExpense : String
deriving DecidableEq, Repr

/-- Embedding of `DatabaseStorage.getUserGroupPermission`
(server/storage.ts): select the membership row matching both the user id
and the group id (the pair is unique, the query takes the first row). -/
def getUserGroupPermission (memberships : List UserGroup)
    (userId : String) (groupId : Nat) : Option UserGroup :=
  (memberships.filter fun m => m.userId == userId && m.groupId == groupId).head?

/-- Server state touched by transaction creation: the `transactions` rows
and the serial id counter. -/
structure ServerState where
  memberships : List UserGroup
  rows : List Transaction
  nextId : Nat
deriving DecidableEq, Repr

/-- The validated body of a create-transaction request. -/
structure TxBody where
  ttype : TxType
  amount : ℚ
  category : String
  description : String
deriving DecidableEq, Repr

/-- Embedding of `DatabaseStorage.createTransaction` (server/storage.ts):
insert the row with the given `userId` and optional `groupId`, the id
coming from the serial column. -/
def createTransaction (st : ServerState) (body : TxBody) (userId : String)
    (groupId : Option Nat) (now : ℤ) : ServerState :=
  { st with
    rows := st.rows ++
      [{ id := st.nextId, userId := userId, groupId := groupId,
         ttype := body.ttype, amount := body.amount,
         category := body.category, description := body.description,
         date := now }],
    nextId := st.nextId + 1 }

/-- Outcome of a request to create a group transaction. -/
inductive CreateGroupTxResult
  | created
  | forbidden
deriving DecidableEq, Repr

/-- Modelled from the spec: no route in src/ creates a group-scoped
transaction (only the storage building blocks `getUserGroupPermission` and
`createTransaction` exist).  Spec §4.3 requires, for a group-member write
route, that a `GroupMembership` row exists and `canAddExpense == true`,
rejecting with `Forbidden` before reaching the storage layer otherwise. -/
def createGroupTransactionRoute (st : ServerState) (userId : String)
    (groupId : Nat) (body : TxBody) (now : ℤ) :
    ServerState × CreateGroupTxResult :=
  match getUserGroupPermission st.memberships userId groupId with
  | none => (st, CreateGroupTxResult.forbidden)
  | some m =>
    if m.canAddExpense == "true"
      then (createTransaction st body userId (some groupId) now,
        CreateGroupTxResult.created)
      else (st, CreateGroupTxResult.forbidden)

/-- C9: a member whose membership row carries `canAddExpense = "false"` is
rejected with `Forbidden` and the server state is unchanged (no transaction
is persisted). -/
theorem createGroupTransactionRoute_forbidden (st : ServerState)
    (userId : String) (groupId : Nat) (body : TxBody) (now : ℤ) (m : UserGroup)
    (hm : getUserGroupPermission st.memberships userId groupId = some m)
    (hperm : m.canAddExpense = "false") :
    createGroupTransactionRoute st userId groupId body now
      = (st, CreateGroupTxResult.forbidden) := by
  rw [createGroupTransactionRoute, hm]
  simp [hperm]

def mW : UserGroup :=
  { id := 1, userId := "u2", groupId := 5, canAddExpense := "false" }

def stW : ServerState :=
  { memberships := [mW], rows := [], nextId := 1 }

def bodyW : TxBody :=
  { ttype := TxType.expense, amount := 10, category := "Shopping",
    description := "shared" }

/-- Witness for C9 at a concrete state: user `u2` is a member of group 5
without the add-expense permission. -/
theorem createGroupTransactionRoute_forbidden_witness :
    createGroupTransactionRoute stW "u2" 5 bodyW 0
      = (stW, CreateGroupTxResult.forbidden) :=
  createGroupTransactionRoute_forbidden stW "u2" 5 bodyW 0 mW
    (by simp [getUserGroupPermission, stW, mW]) (by rfl)

/-
IEEE-754 binary64 model.  The source computes balances with
`parseFloat(t.amount)` and JavaScript `+`, i.e. with binary64 doubles, not
with exact decimal arithmetic.  The model below embeds the normal-range
fragment of binary64 (ample for the two-place currency magnitudes the
schema column `decimal(10, 2)` admits: no overflow, no subnormals): a
double is an integer mantissa times a power of two, and every operation
rounds its exact rational result to 53 significant bits, nearest,
ties-to-even — exactly the IEEE behaviour JavaScript numbers have.  All
arithmetic is over `ℤ`, with a stored amount represented by its integer
number of cents (the exact value of the two-place decimal string is
`cents / 100`).
-/

namespace F64

/-- A JavaScript number (normal-range IEEE-754 binary64): the value
`m * 2 ^ e` with a 53-bit mantissa `m`. -/
structure Dbl where
  m : ℤ
  e : ℤ
deriving DecidableEq, Repr

/-- Scale the positive fraction `n / d` by powers of two (tracked in `k`)
until the scaled value lies in `[2^52, 2^53)`; `4503599627370496 = 2^52`
and `9007199254740992 = 2^53`.  The fuel bounds the exponent range and is
never exhausted for normal-range inputs. -/
def normFrac : ℕ → ℤ → ℤ → ℤ → ℤ × ℤ × ℤ
  | 0, n, d, k => (n, d, k)
  | fuel+1, n, d, k =>
    if n < 4503599627370496 * d then normFrac fuel (2 * n) d (k + 1)
    else if 9007199254740992 * d ≤ n then normFrac fuel n (2 * d) (k - 1)
    else (n, d, k)

/-- Round the nonnegative fraction `n / d` to the nearest integer,
ties-to-even. -/
def rneFrac (n d : ℤ) : ℤ :=
  let f := n / d
  let r2 := 2 * (n - f * d)
  if r2 < d then f
  else if d < r2 then f + 1
  else if f % 2 = 0 then f else f + 1

/-- Round the positive fraction `n / d` to the nearest binary64 value. -/
def roundPosFrac (n d : ℤ) : Dbl :=
  let t := normFrac 4400 n d 0
  { m := rneFrac t.1 t.2.1, e := -t.2.2 }

/-- Round the fraction `n / d` (`d > 0`) to the nearest binary64 value;
rounding is symmetric about zero. -/
def roundFrac (n d : ℤ) : Dbl :=
  if n = 0 then { m := 0, e := 0 }
  else if 0 < n then roundPosFrac n d
  else
    let p := roundPosFrac (-n) d
    { m := -p.m, e := p.e }

/-- Embedding of `parseFloat` applied to the stored two-place decimal
string whose value is `cents / 100`: decimal-to-binary64 conversion rounds
to nearest. -/
def parseAmount (cents : ℤ) : Dbl := roundFrac cents 100

/-- Binary64 addition: the exact (dyadic) sum, rounded to 53 bits. -/
def fadd (a b : Dbl) : Dbl :=
  let e := min a.e b.e
  let msum := a.m * 2 ^ (a.e - e).toNat + b.m * 2 ^ (b.e - e).toNat
  if 0 ≤ e then roundFrac (msum * 2 ^ e.toNat) 1
  else roundFrac msum (2 ^ (-e).toNat)

/-- Binary64 subtraction (negation is exact). -/
def fsub (a b : Dbl) : Dbl := fadd a { m := -b.m, e := b.e }

/-- The exact rational value of a binary64 number. -/
def Dbl.toRat (x : Dbl) : ℚ :=
  if 0 ≤ x.e then (x.m : ℚ) * 2 ^ x.e.toNat
  else (x.m : ℚ) * ((2:ℚ) ^ (-x.e).toNat)⁻¹

/-- The `{ balance, income, expenses }` record under binary64 semantics. -/
structure FBalance where
  balance : Dbl
  income : Dbl
  expenses : Dbl
deriving DecidableEq, Repr

/-- Embedding of `getBalance` (server/storage.ts) under the actual
JavaScript number semantics: each row carries its type and its stored
amount as integer cents; the reduce is
`(sum, t) => sum + parseFloat(t.amount)` from `0`, every step rounding to
binary64. -/
def getBalanceF (rows : List (TxType × ℤ)) : FBalance :=
  let income := (rows.filter fun r => r.1 == TxType.income).foldl
    (fun sum r => fadd sum (parseAmount r.2)) { m := 0, e := 0 }
  let expenses := (rows.filter fun r => r.1 == TxType.expense).foldl
    (fun sum r => fadd sum (parseAmount r.2)) { m := 0, e := 0 }
  { balance := fsub income expenses, income := income, expenses := expenses }

/-- C1 (failing input): for the amounts `"0.10"` and `"0.20"` (10 and 20
cents) the summation of `getBalance` does not return the exact decimal sum
`0.30`: the computed income is the binary64 value
`5404319552844596 * 2 ^ (-54) = 0.30000000000000004...`, strictly greater
than `3 / 10`. -/
theorem getBalanceF_rounding_bug :
    (getBalanceF [(TxType.income, 10), (TxType.income, 20)]).income
      = { m := 5404319552844596, e := -54 }
    ∧ Dbl.toRat { m := 5404319552844596, e := -54 } ≠ 1/10 + 2/10
    ∧ Dbl.toRat { m := 5404319552844596, e := -54 }
        = 1351079888211149 / 4503599627370496 := by
  refine ⟨by decide, ?_, ?_⟩ <;>
  · simp only [Dbl.toRat]
    norm_num
    rw [show Int.toNat 54 = 54 from rfl]
    norm_num

/-- The binary64 running sum `(sum, t) => sum + parseFloat(t.amount)` of a
list of stored amounts (as cents), starting from `0`. -/
def fsum (cents : List ℤ) : Dbl :=
  cents.foldl (fun sum c => fadd sum (parseAmount c)) { m := 0, e := 0 }

/-- C2 (counterexample): for expense amounts `"0.10"` and `"0.20"` the
expenses value returned by `getBalance` differs from the exact sum of the
stored amounts, so the returned sums are not the sums of the amounts. -/
theorem getBalanceF_expenses_ne_exact_sum :
    Dbl.toRat (getBalanceF [(TxType.expense, 10), (TxType.expense, 20)]).expenses
      ≠ 1/10 + 2/10 := by
  have h : (getBalanceF [(TxType.expense, 10), (TxType.expense, 20)]).expenses
      = { m := 5404319552844596, e := -54 } := by decide
  rw [h]
  simp only [Dbl.toRat]
  norm_num
  rw [show Int.toNat 54 = 54 from rfl]
  norm_num

/-- C2 (amended): under the program's binary64 arithmetic, `getBalance`
returns income equal to the binary64 left-to-right sum of `parseFloat` of
the income-type amounts, expenses likewise over the expense-type amounts,
balance equal to the binary64 difference of those two values, and the
all-zero record for the empty transaction set. -/
theorem getBalanceF_spec (rows : List (TxType × ℤ)) :
    (getBalanceF rows).income
        = fsum ((rows.filter fun r => r.1 == TxType.income).map (·.2))
    ∧ (getBalanceF rows).expenses
        = fsum ((rows.filter fun r => r.1 == TxType.expense).map (·.2))
    ∧ (getBalanceF rows).balance
        = fsub (getBalanceF rows).income (getBalanceF rows).expenses
    ∧ getBalanceF [] = ⟨⟨0, 0⟩, ⟨0, 0⟩, ⟨0, 0⟩⟩ := by
  refine ⟨?_, ?_, rfl, by decide⟩ <;> simp [getBalanceF, fsum, List.foldl_map]

/-- A transaction row as the category-spending endpoint consumes it: type,
category and the stored two-place decimal amount as cents. -/
structure FRow where
  ttype : TxType
  category : String
  cents : ℤ
deriving DecidableEq, Repr

/-- The expenses fold of `getBalance` (server/storage.ts) under binary64,
over full rows: filter to expense type, reduce with
`(sum, t) => sum + parseFloat(t.amount)` from `0`. -/
def expensesBalanceF (rows : List FRow) : Dbl :=
  (rows.filter fun r => r.ttype == TxType.expense).foldl
    (fun sum r => fadd sum (parseAmount r.cents)) { m := 0, e := 0 }

/-- The `totalExpenses` accumulator of `getCategorySpending`
(server/storage.ts) under binary64: the same filter and the same reduce as
the expenses fold of `getBalance`. -/
def totalExpensesF (rows : List FRow) : Dbl :=
  (rows.filter fun r => r.ttype == TxType.expense).foldl
    (fun sum r => fadd sum (parseAmount r.cents)) { m := 0, e := 0 }

/-- One step of the `expenses.forEach` loop of `getCategorySpending` under
binary64: `categoryTotals.set(c, (categoryTotals.get(c) || 0) + amount)`
with the `+` a binary64 addition. -/
def addAmountF : List (String × Dbl) → String → Dbl → List (String × Dbl)
  | [], c, a => [(c, a)]
  | p :: rest, c, a =>
    if p.1 = c then (p.1, fadd p.2 a) :: rest else p :: addAmountF rest c a

/-- The `categoryTotals` entries of `getCategorySpending` under binary64. -/
def categoryEntriesF (rows : List FRow) : List (String × Dbl) :=
  (rows.filter fun r => r.ttype == TxType.expense).foldl
    (fun m r => addAmountF m r.category (parseAmount r.cents)) []

/-- Expenses `0.10` (category A), `0.20` (category B), `0.30` (category A). -/
def rowsC : List FRow :=
  [{ ttype := TxType.expense, category := "A", cents := 10 },
   { ttype := TxType.expense, category := "B", cents := 20 },
   { ttype := TxType.expense, category := "A", cents := 30 }]

/-- C10 (counterexample): for expenses 0.10 (A), 0.20 (B), 0.30 (A) the
per-category binary64 amounts are `0.4` and `0.2`, whose exact sum
`21617278211378382 * 2 ^ (-55)` differs from the computed binary64 total
`0.6000000000000001 = 21617278211378384 * 2 ^ (-55)`: the per-category
amounts do not sum exactly to the total used as the denominator. -/
theorem categoryEntriesF_sum_ne_total :
    ((categoryEntriesF rowsC).map fun p => Dbl.toRat p.2).sum
      ≠ Dbl.toRat (totalExpensesF rowsC) := by
  have h1 : categoryEntriesF rowsC
      = [("A", { m := 7205759403792794, e := -54 }),
         ("B", { m := 7205759403792794, e := -55 })] := by decide
  have h2 : totalExpensesF rowsC = { m := 5404319552844596, e := -53 } := by
    decide
  rw [h1, h2]
  simp only [List.map_cons, List.map_nil, List.sum_cons, List.sum_nil,
    Dbl.toRat]
  norm_num
  rw [show Int.toNat 54 = 54 from rfl, show Int.toNat 55 = 55 from rfl,
    show Int.toNat 53 = 53 from rfl]
  norm_num

end F64

/-- C10 (amended): no category occurs twice in the category-spending
report, and the percentage denominator of `getCategorySpending` is the
very binary64 expenses value that `getBalance` reports (both are the same
filter-and-reduce over the same rows); the per-category amounts themselves
need not sum exactly to that total under binary64. -/
theorem getCategorySpending_nodup_denominator (txs : List Transaction)
    (rows : List F64.FRow) :
    ((getCategorySpending txs).map (·.category)).Nodup
    ∧ F64.totalExpensesF rows = F64.expensesBalanceF rows := by
  constructor
  · have hperm : List.Perm (getCategorySpending txs) (preSpending txs) :=
      List.perm_insertionSort spendDesc (preSpending txs)
    refine (hperm.map (·.category)).nodup_iff.mpr ?_
    have : (preSpending txs).map (·.category)
        = (categoryEntries txs).map Prod.fst := by
      simp [preSpending]
    rw [this, categoryEntries]
    exact nodup_keys_foldl_addAmount _ [] (by simp)
  · rfl

end Fiance
